import Mathlib

/-!
Verification of the parallel command scheduler (dgraph.c, args.c) of the
dash fork.  The definitions below are a shallow embedding of the C source:
each definition's doc comment names the C function (and lines) it mirrors.
-/

namespace Dash

/-! ### Data model (dgraph.h / dgraph.c)

`dg_file` entries carry a file or variable name with an access flag
(`READ_ACCESS` / `WRITE_ACCESS`); continue/break control entries are encoded
with a NULL name, the effective nest level in `name_size`, and the flag set
to `CONTINUE` / `BREAK` (this is the convention `dg_dep_check` in dgraph.c
reads; args.c's `{type, nest}` fields encode the same entry). -/

/-- Access flag of a `dg_file` entry: `READ_ACCESS`, `WRITE_ACCESS`,
`CONTINUE`, `BREAK`. -/
inductive Access where
  | read
  | write
  | cont
  | brk
deriving DecidableEq, Repr

/-- A `struct dg_file` entry.  `name = none` denotes a continue/break control
entry, in which case `nameSize` is the effective target nest level. -/
structure DgFile where
  name : Option String
  nameSize : Int
  flag : Access
deriving DecidableEq, Repr

/-- Result of `dg_dep_check`: the `NO_CLASH` / `CONCURRENT_READ` /
`WRITE_COLLISION` enum of dgraph.c. -/
inductive Collision where
  | noClash
  | concurrentRead
  | writeCollision
deriving DecidableEq, Repr

/-- The per-node data of a `struct dg_node` used by the dependency checker:
its identity (a heap pointer in C), its footprint (`files`), its lexical
`nest`, its `iteration`, and the `(nest, iteration)` pairs of the graph nodes
of its enclosing parent wrappers, nearest first (the chain walked by
`tmp->parent->node`). -/
structure NData where
  id : Nat
  files : List DgFile
  nest : Int
  iteration : Int
  chain : List (Int × Int)
deriving DecidableEq, Repr

/-- The parent-chain walk `while (tmp->nest > t) tmp = tmp->parent->node`
(dgraph.c:358-361, 243-244, 644-645): returns the `(nest, iteration)` of
the landing node.  An exhausted chain (which would dereference a NULL parent
in C) lands on `(0, 0)`. -/
def climb : List (Int × Int) → Int → Int × Int
  | [], _ => (0, 0)
  | (n, i) :: rest, t => if t < n then climb rest t else (n, i)

/-- The full `(nest, iteration)` chain starting at the node itself. -/
def chainOf (d : NData) : List (Int × Int) := (d.nest, d.iteration) :: d.chain

/-- Iteration of the ancestor at (or first below) nest `t`. -/
def iterAt (c : List (Int × Int)) (t : Int) : Int := (climb c t).2

/-! ### dg_dep_check (dgraph.c:338-389) -/

/-- Inner loop of `dg_dep_check` (dgraph.c:375-384): scan `files1` against a
regular-file entry `f2` whose name is `nm2`, updating the collision
accumulator.  Control entries in `files1` have a NULL name and match
nothing. -/
def depCheckInner (files1 : List DgFile) (nm2 : String) (fl2 : Access)
    (c : Collision) : Collision :=
  files1.foldl
    (fun c f1 =>
      match f1.name with
      | some nm1 =>
          if nm1 = nm2 then
            if f1.flag = .write ∨ fl2 = .write then .writeCollision
            else if c = .noClash then .concurrentRead else c
          else c
      | none => c)
    c

/-- One iteration of the outer `for (; files2; ...)` loop of `dg_dep_check`
(dgraph.c:345-385).  A NULL-named entry is a continue/break: when `node1` is
nested at or below the entry's effective nest, both nodes are climbed to that
nest and the iteration rule decides a write collision; otherwise the entry
matches no name. -/
def depCheckStep (n1 : NData) (chain2 : List (Int × Int))
    (c : Collision) (f2 : DgFile) : Collision :=
  match f2.name with
  | none =>
      if n1.nest ≠ 0 ∧ f2.nameSize ≤ n1.nest then
        let it1 := iterAt (chainOf n1) f2.nameSize
        let it2 := iterAt chain2 f2.nameSize
        if (f2.flag = .cont ∧ it1 = it2) ∨ (f2.flag = .brk ∧ it2 ≤ it1) then
          .writeCollision
        else c
      else c
  | some nm2 => depCheckInner n1.files nm2 f2.flag c

/-- `dg_dep_check (node1, node2)` (dgraph.c:338-389): cross-check the two
footprints for access conflicts.  `n1` is the node being added, `n2` already
exists in the graph. -/
def dgDepCheck (n1 n2 : NData) : Collision :=
  n2.files.foldl (depCheckStep n1 (chainOf n2)) .noClash

/-! ### The dependents structure and dg_dep_add (dgraph.c:404-439)

A graph node owns an ordered `dependents` list (`struct dg_list`); each
dependent is itself a graph node with its own list.  We model the structure
reachable from one node as a tree (`DNode`) over a forest (`DForest`) of
dependents. -/

mutual
/-- A graph node together with the dependents structure reachable from it. -/
inductive DNode where
  | mk (data : NData) (deps : DForest)
/-- An ordered `dependents` list (`struct dg_list`). -/
inductive DForest where
  | nil
  | cons (head : DNode) (tail : DForest)
end

/-- The node's own data. -/
def rootData : DNode → NData
  | .mk d _ => d

/-- The node's dependents list. -/
def depsOf : DNode → DForest
  | .mk _ f => f

/-- Append two dependents lists (the `iter->next = ...` surgery at the end
of `dg_dep_add`). -/
def appendF : DForest → DForest → DForest
  | .nil, g => g
  | .cons t rest, g => .cons t (appendF rest g)

mutual
/-- `dg_dep_add (new_node, node)` (dgraph.c:404-439), functionally: returns
the updated dependents structure of `node` and the number of dependencies
contributed.  If the footprints do not clash, 0.  Otherwise walk the
dependents list: if `new` is found there, return 0 (keeping mutations already
made); sum the recursive contributions; if the walk contributed nothing and
the clash is a write collision, append `new` at the end of the list and
contribute 1. -/
def dgDepAdd (new : NData) : DNode → DNode × Nat
  | .mk d deps =>
    let fa := dgDepCheck new d
    if fa = .noClash then (.mk d deps, 0)
    else
      match deps with
      | .nil =>
          if fa = .writeCollision then
            (.mk d (.cons (.mk new .nil) .nil), 1)
          else (.mk d .nil, 0)
      | .cons h t =>
          let r := dgDepAddF new (.cons h t)
          if r.2.1 then (.mk d r.1, 0)
          else if r.2.2 = 0 ∧ fa = .writeCollision then
            (.mk d (appendF r.1 (.cons (.mk new .nil) .nil)), 1)
          else (.mk d r.1, r.2.2)

/-- The `do { ... } while (iter->next && (iter = iter->next))` loop of
`dg_dep_add` (dgraph.c:417-425): returns the updated list, whether `new`
was found as a direct member (the `new_node == iter->node` early return),
and the summed contributions.  On a find the remainder of the list is left
untouched and the count is discarded by the caller. -/
def dgDepAddF (new : NData) : DForest → DForest × Bool × Nat
  | .nil => (.nil, false, 0)
  | .cons t rest =>
    if (rootData t).id = new.id then (.cons t rest, true, 0)
    else
      let p := dgDepAdd new t
      match rest with
      | .nil => (.cons p.1 .nil, false, p.2)
      | .cons h2 t2 =>
          let q := dgDepAddF new (.cons h2 t2)
          (.cons p.1 q.1, q.2.1, p.2 + q.2.2)
end

/-! ### Helpers over the dependents structure -/

mutual
/-- Identities of all nodes reachable from a node (itself included). -/
def allIdsT : DNode → List Nat
  | .mk d f => d.id :: allIdsF f
/-- Identities of all nodes reachable from a dependents list. -/
def allIdsF : DForest → List Nat
  | .nil => []
  | .cons t rest => allIdsT t ++ allIdsF rest
end

mutual
/-- Data of all nodes reachable from a node (itself included). -/
def allDataT : DNode → List NData
  | .mk d f => d :: allDataF f
/-- Data of all nodes reachable from a dependents list. -/
def allDataF : DForest → List NData
  | .nil => []
  | .cons t rest => allDataT t ++ allDataF rest
end

/-- Identities of the direct members of a dependents list. -/
def directIds : DForest → List Nat
  | .nil => []
  | .cons t rest => (rootData t).id :: directIds rest

theorem directIds_subset : ∀ f : DForest, ∀ x ∈ directIds f, x ∈ allIdsF f
  | .nil, x, hx => by simp [directIds] at hx
  | .cons t rest, x, hx => by
      cases t with
      | mk d g =>
        simp only [directIds, rootData, List.mem_cons] at hx
        simp only [allIdsF, allIdsT, List.mem_append, List.mem_cons]
        rcases hx with h | h
        · exact Or.inl (Or.inl h)
        · exact Or.inr (directIds_subset rest x h)

theorem allIdsF_appendF : ∀ a b : DForest,
    allIdsF (appendF a b) = allIdsF a ++ allIdsF b
  | .nil, b => by simp [appendF, allIdsF]
  | .cons t rest, b => by
      simp [appendF, allIdsF, allIdsF_appendF rest b]

/-! ### Footprint-conflict predicates (the spec's vocabulary)

"footprints share at least one name and at least one of the matching
accesses is a write" / "share names only with read access on both sides". -/

/-- Two entries name-match with a write on at least one side. -/
def nameMatchWrite (f1 f2 : DgFile) : Prop :=
  f1.name ≠ none ∧ f1.name = f2.name ∧ (f1.flag = .write ∨ f2.flag = .write)

instance : DecidablePred fun p : DgFile × DgFile => nameMatchWrite p.1 p.2 :=
  fun _ => by unfold nameMatchWrite; infer_instance

instance (f1 f2 : DgFile) : Decidable (nameMatchWrite f1 f2) := by
  unfold nameMatchWrite; infer_instance

/-- The two footprints share at least one name with a write on some side. -/
def sharesWrite (l1 l2 : List DgFile) : Prop :=
  ∃ f1 ∈ l1, ∃ f2 ∈ l2, nameMatchWrite f1 f2

instance (l1 l2 : List DgFile) : Decidable (sharesWrite l1 l2) := by
  unfold sharesWrite; infer_instance

/-- The two footprints share at least one (non-control) name. -/
def sharesName (l1 l2 : List DgFile) : Prop :=
  ∃ f1 ∈ l1, ∃ f2 ∈ l2, f1.name ≠ none ∧ f1.name = f2.name

instance (l1 l2 : List DgFile) : Decidable (sharesName l1 l2) := by
  unfold sharesName; infer_instance

/-- The footprint has no continue/break control entry. -/
def noControl (l : List DgFile) : Prop := ∀ f ∈ l, f.name ≠ none

instance (l : List DgFile) : Decidable (noControl l) := by
  unfold noControl; infer_instance

/-! ### Characterization of `dg_dep_check` on control-free footprints -/

theorem depCheckInner_eq_write (nm2 : String) (fl2 : Access) :
    ∀ (files1 : List DgFile) (c : Collision),
      (depCheckInner files1 nm2 fl2 c = .writeCollision ↔
        c = .writeCollision ∨
          ∃ f1 ∈ files1, f1.name = some nm2 ∧ (f1.flag = .write ∨ fl2 = .write)) := by
  intro files1
  induction files1 with
  | nil => intro c; simp [depCheckInner]
  | cons f rest ih =>
    intro c
    have hstep : depCheckInner (f :: rest) nm2 fl2 c =
        depCheckInner rest nm2 fl2
          (match f.name with
           | some nm1 =>
               if nm1 = nm2 then
                 if f.flag = .write ∨ fl2 = .write then .writeCollision
                 else if c = .noClash then .concurrentRead else c
               else c
           | none => c) := rfl
    rw [hstep, ih]
    simp only [List.mem_cons]
    have haux : ∀ (A B : Prop), (A ↔ B) →
        ¬ (f.name = some nm2 ∧ (f.flag = .write ∨ fl2 = .write)) →
        ((A ∨ ∃ f1 ∈ rest, f1.name = some nm2 ∧ (f1.flag = .write ∨ fl2 = .write)) ↔
          (B ∨ ∃ f1, (f1 = f ∨ f1 ∈ rest) ∧
            f1.name = some nm2 ∧ (f1.flag = .write ∨ fl2 = .write))) := by
      intro A B hAB hPf
      constructor
      · rintro (h | ⟨f1, h1, h2⟩)
        · exact Or.inl (hAB.mp h)
        · exact Or.inr ⟨f1, Or.inr h1, h2⟩
      · rintro (h | ⟨f1, (rfl | h1), h2⟩)
        · exact Or.inl (hAB.mpr h)
        · exact absurd h2 hPf
        · exact Or.inr ⟨f1, h1, h2⟩
    rcases hn : f.name with _ | nm1
    · simp only [hn]
      exact haux _ _ Iff.rfl (by simp [hn])
    · simp only [hn]
      by_cases hnm : nm1 = nm2
      · subst hnm
        by_cases hw : f.flag = .write ∨ fl2 = .write
        · rw [if_pos rfl, if_pos hw]
          constructor
          · intro _; exact Or.inr ⟨f, Or.inl rfl, hn, hw⟩
          · intro _; exact Or.inl rfl
        · rw [if_pos rfl, if_neg hw]
          by_cases hc : c = .noClash
          · rw [if_pos hc]; subst hc
            exact haux _ _ (by simp) (fun h => hw h.2)
          · rw [if_neg hc]
            exact haux _ _ Iff.rfl (fun h => hw h.2)
      · rw [if_neg hnm]
        refine haux _ _ Iff.rfl (fun h => hnm ?_)
        have := h.1
        rw [hn] at this
        exact Option.some_injective _ this

theorem depCheckFold_write (n1 : NData) (ch2 : List (Int × Int)) :
    ∀ (l2 : List DgFile) (c : Collision), (∀ f ∈ l2, f.name ≠ none) →
      (l2.foldl (depCheckStep n1 ch2) c = .writeCollision ↔
        c = .writeCollision ∨ ∃ f2 ∈ l2, ∃ f1 ∈ n1.files, nameMatchWrite f1 f2) := by
  intro l2
  induction l2 with
  | nil => intro c _; simp
  | cons f2 rest ih =>
    intro c hctl
    rcases hn2 : f2.name with _ | nm2
    · exact absurd hn2 (hctl f2 (List.mem_cons_self _ _))
    · have hstep : (f2 :: rest).foldl (depCheckStep n1 ch2) c =
          rest.foldl (depCheckStep n1 ch2) (depCheckInner n1.files nm2 f2.flag c) := by
        simp only [List.foldl_cons]
        congr 1
        simp [depCheckStep, hn2]
      rw [hstep, ih _ (fun f hf => hctl f (List.mem_cons_of_mem _ hf)),
        depCheckInner_eq_write]
      constructor
      · rintro ((h | ⟨f1, h1, h2, h3⟩) | ⟨g2, hg2, f1, h1, hm⟩)
        · exact Or.inl h
        · refine Or.inr ⟨f2, List.mem_cons_self _ _, f1, h1, ?_, ?_, h3⟩
          · rw [h2]; simp
          · rw [h2, hn2]
        · exact Or.inr ⟨g2, List.mem_cons_of_mem _ hg2, f1, h1, hm⟩
      · rintro (h | ⟨g2, hg2, f1, h1, hm⟩)
        · exact Or.inl (Or.inl h)
        · rcases List.mem_cons.mp hg2 with rfl | hg2
          · refine Or.inl (Or.inr ⟨f1, h1, ?_, hm.2.2⟩)
            rw [hm.2.1, hn2]
          · exact Or.inr ⟨g2, hg2, f1, h1, hm⟩

/-- On control-free footprints, `dg_dep_check` reports a write collision
iff the footprints share a name with a write on at least one side. -/
theorem dgDepCheck_write_iff (n1 n2 : NData) (h : noControl n2.files) :
    dgDepCheck n1 n2 = .writeCollision ↔ sharesWrite n1.files n2.files := by
  unfold dgDepCheck sharesWrite
  rw [depCheckFold_write n1 (chainOf n2) n2.files .noClash h]
  constructor
  · rintro (h | ⟨f2, h2, f1, h1, hm⟩)
    · exact absurd h (by simp)
    · exact ⟨f1, h1, f2, h2, hm⟩
  · rintro ⟨f1, h1, f2, h2, hm⟩
    exact Or.inr ⟨f2, h2, f1, h1, hm⟩

/-! ### Behaviour of `dg_dep_add` -/

/-- If the walk reports that `new` was found, `new` is a direct member of
the dependents list. -/
theorem dgDepAddF_found (new : NData) :
    ∀ f : DForest, (dgDepAddF new f).2.1 = true → new.id ∈ directIds f
  | .nil => by simp [dgDepAddF, directIds]
  | .cons t rest => by
      intro hfound
      by_cases hid : (rootData t).id = new.id
      · simp [directIds, hid]
      · rw [dgDepAddF] at hfound
        rw [if_neg hid] at hfound
        cases rest with
        | nil => simp at hfound
        | cons h2 t2 =>
            simp only at hfound
            have := dgDepAddF_found new (.cons h2 t2) hfound
            show new.id ∈ (rootData t).id :: directIds (DForest.cons h2 t2)
            exact List.mem_cons_of_mem _ this

mutual
/-- If `new`'s footprint write-collides with no node reachable from `t`
(by `dg_dep_check`), then `dg_dep_add` leaves the structure unchanged and
contributes 0. -/
theorem dgDepAdd_noWrite (new : NData) (t : DNode)
    (h : ∀ d ∈ allDataT t, dgDepCheck new d ≠ .writeCollision) :
    dgDepAdd new t = (t, 0) := by
  cases t with
  | mk d deps =>
    have hd : dgDepCheck new d ≠ .writeCollision :=
      h d (by simp [allDataT])
    have hdeps : ∀ x ∈ allDataF deps, dgDepCheck new x ≠ .writeCollision := by
      intro x hx
      exact h x (by simp [allDataT, List.mem_cons]; exact Or.inr hx)
    rw [dgDepAdd.eq_def]
    simp only
    by_cases hnc : dgDepCheck new d = .noClash
    · rw [if_pos hnc]
    · rw [if_neg hnc]
      cases deps with
      | nil =>
          simp only
          rw [if_neg hd]
      | cons h1 t1 =>
          have hrec := dgDepAddF_noWrite new (.cons h1 t1) hdeps
          simp only
          by_cases hf : (dgDepAddF new (.cons h1 t1)).2.1
          · rw [if_pos hf, hrec.1]
          · rw [if_neg hf]
            rw [if_neg (by
              rintro ⟨_, hw⟩
              exact hd hw)]
            rw [hrec.1, hrec.2]

/-- List version of `dgDepAdd_noWrite`. -/
theorem dgDepAddF_noWrite (new : NData) (f : DForest)
    (h : ∀ d ∈ allDataF f, dgDepCheck new d ≠ .writeCollision) :
    (dgDepAddF new f).1 = f ∧ (dgDepAddF new f).2.2 = 0 := by
  cases f with
  | nil => simp [dgDepAddF]
  | cons t rest =>
    have ht : ∀ d ∈ allDataT t, dgDepCheck new d ≠ .writeCollision := by
      intro x hx
      exact h x (by simp only [allDataF, List.mem_append]; exact Or.inl hx)
    have hrest : ∀ d ∈ allDataF rest, dgDepCheck new d ≠ .writeCollision := by
      intro x hx
      exact h x (by simp only [allDataF, List.mem_append]; exact Or.inr hx)
    rw [dgDepAddF]
    by_cases hid : (rootData t).id = new.id
    · rw [if_pos hid]
      exact ⟨rfl, rfl⟩
    · rw [if_neg hid]
      have hT := dgDepAdd_noWrite new t ht
      cases rest with
      | nil =>
          simp [hT]
      | cons h2 t2 =>
          have hF := dgDepAddF_noWrite new (.cons h2 t2) hrest
          simp [hT, hF.1, hF.2]
end

mutual
/-- When `new` does not occur in the structure, the number of occurrences of
`new` appended by `dg_dep_add` equals the contributed dependency count. -/
theorem dgDepAdd_occ (new : NData) (t : DNode)
    (h : new.id ∉ allIdsT t) :
    (allIdsT (dgDepAdd new t).1).count new.id = (dgDepAdd new t).2 := by
  cases t with
  | mk d deps =>
    have hd : new.id ≠ d.id := by
      intro he
      exact h (by simp [allIdsT, he])
    have hdeps : new.id ∉ allIdsF deps := by
      intro he
      exact h (by simp [allIdsT]; exact Or.inr he)
    rw [dgDepAdd.eq_def]
    simp only
    by_cases hnc : dgDepCheck new d = .noClash
    · rw [if_pos hnc]
      simpa using List.count_eq_zero_of_not_mem h
    · rw [if_neg hnc]
      cases deps with
      | nil =>
          by_cases hw : dgDepCheck new d = .writeCollision
          · simp only [if_pos hw]
            simp [allIdsT, allIdsF, List.count_cons, hd, Ne.symm hd]
          · simp only [if_neg hw]
            simpa using List.count_eq_zero_of_not_mem h
      | cons h1 t1 =>
          simp only
          by_cases hf : (dgDepAddF new (.cons h1 t1)).2.1
          · exact absurd (directIds_subset _ _ (dgDepAddF_found new _ hf)) hdeps
          · rw [if_neg hf]
            have hocc := dgDepAddF_occ new (.cons h1 t1) hdeps
            by_cases hz : (dgDepAddF new (.cons h1 t1)).2.2 = 0 ∧
                dgDepCheck new d = .writeCollision
            · rw [if_pos hz]
              simp only [allIdsT, allIdsF_appendF, allIdsF]
              rw [List.count_cons]
              rw [List.count_append]
              rw [hocc, hz.1]
              simp [allIdsT, allIdsF, Ne.symm hd]
            · rw [if_neg hz]
              simp only [allIdsT]
              rw [List.count_cons, hocc]
              simp [Ne.symm hd]

/-- List version of `dgDepAdd_occ`. -/
theorem dgDepAddF_occ (new : NData) (f : DForest)
    (h : new.id ∉ allIdsF f) :
    (allIdsF (dgDepAddF new f).1).count new.id = (dgDepAddF new f).2.2 := by
  cases f with
  | nil => simp [dgDepAddF, allIdsF]
  | cons t rest =>
    have ht : new.id ∉ allIdsT t := by
      intro he
      exact h (by simp [allIdsF]; exact Or.inl he)
    have hrest : new.id ∉ allIdsF rest := by
      intro he
      exact h (by simp [allIdsF]; exact Or.inr he)
    rw [dgDepAddF]
    have hid : (rootData t).id ≠ new.id := by
      intro he
      cases t with
      | mk d g => exact ht (by simp [rootData] at he; simp [allIdsT, he])
    rw [if_neg hid]
    have hT := dgDepAdd_occ new t ht
    cases rest with
    | nil =>
        simp only [allIdsF, List.count_append, hT]
        simp [List.count_eq_zero_of_not_mem hrest]
    | cons h2 t2 =>
        have hF := dgDepAddF_occ new (.cons h2 t2) hrest
        simp only [allIdsF, List.count_append, hT, hF]
end

/-- When `new`'s footprint write-collides with the root's (by
`dg_dep_check`) and `new` is not already reachable, `dg_dep_add`
contributes at least one dependency. -/
theorem dgDepAdd_pos (new : NData) (t : DNode)
    (hc : dgDepCheck new (rootData t) = .writeCollision)
    (h : new.id ∉ allIdsT t) :
    1 ≤ (dgDepAdd new t).2 := by
  cases t with
  | mk d deps =>
    simp only [rootData] at hc
    have hdeps : new.id ∉ allIdsF deps := by
      intro he
      exact h (by simp [allIdsT]; exact Or.inr he)
    rw [dgDepAdd.eq_def]
    simp only
    rw [if_neg (by rw [hc]; simp)]
    cases deps with
    | nil => simp [hc]
    | cons h1 t1 =>
        simp only
        by_cases hf : (dgDepAddF new (.cons h1 t1)).2.1
        · exact absurd (directIds_subset _ _ (dgDepAddF_found new _ hf)) hdeps
        · rw [if_neg hf]
          by_cases hz : (dgDepAddF new (.cons h1 t1)).2.2 = 0
          · rw [if_pos ⟨hz, hc⟩]
          · rw [if_neg (by rintro ⟨hz1, _⟩; exact hz hz1)]
            exact Nat.one_le_iff_ne_zero.mpr hz

/-! ### Concrete footprint entries for witnesses and counterexamples -/

/-- A write-access file entry as built by `dg_file_reg` (dgraph.c:489-506). -/
def wfile (s : String) : DgFile := ⟨some s, (s.length : Int) + 1, .write⟩

/-- A read-access file entry as built by `dg_file_reg` for `NFROM`. -/
def rfile (s : String) : DgFile := ⟨some s, (s.length : Int) + 1, .read⟩

/-- C1 counterexample, part one: a frontier root writing `a` and `b` with two
dependents, one writing `a` and one writing `b`. -/
def c1root : DNode :=
  .mk ⟨0, [wfile "a", wfile "b"], 0, 0, []⟩
    (.cons (.mk ⟨1, [wfile "a"], 0, 0, []⟩ .nil)
      (.cons (.mk ⟨2, [wfile "b"], 0, 0, []⟩ .nil) .nil))

/-- C1 counterexample, part one: a new node writing `a` and `b`. -/
def c1new : NData := ⟨3, [wfile "a", wfile "b"], 0, 0, []⟩

/-- C1 counterexample, part two: a root reading `a` and writing `b`, with one
dependent that reads `b` and writes `c`. -/
def c1root2 : DNode :=
  .mk ⟨0, [rfile "a", wfile "b"], 0, 0, []⟩
    (.cons (.mk ⟨1, [rfile "b", wfile "c"], 0, 0, []⟩ .nil) .nil)

/-- C1 counterexample, part two: a new node reading `a` and writing `c` — it
shares with the root only the read-read name `a`. -/
def c1new2 : NData := ⟨3, [rfile "a", wfile "c"], 0, 0, []⟩

/-- C1 witness data: a lone root reading `a`. -/
def c1rootR : DNode := .mk ⟨0, [rfile "a"], 0, 0, []⟩ .nil

/-- C1 witness data: a new node reading `a`. -/
def c1newR : NData := ⟨1, [rfile "a"], 0, 0, []⟩

/-- Claim C1 (as stated) is false on the code.  Part one: the new node's
footprint shares names `a`, `b` with the root with write access, the new node
is not among the root's transitive dependents, and yet `dg_dep_add` creates
two dependence edges and contributes 2 (one edge under each colliding
dependent), not exactly one.  Part two: the new node's footprint shares names
with the root's with read access only on both sides, and yet `dg_dep_add`
creates an edge (under the root's dependent, with which the new node
write-collides) and contributes 1, not 0. -/
theorem c1_counterexample :
    (sharesWrite c1new.files (rootData c1root).files ∧
      c1new.id ∉ allIdsT c1root ∧
      (dgDepAdd c1new c1root).2 = 2 ∧
      (allIdsT (dgDepAdd c1new c1root).1).count c1new.id = 2) ∧
    (sharesName c1new2.files (rootData c1root2).files ∧
      ¬ sharesWrite c1new2.files (rootData c1root2).files ∧
      c1new2.id ∉ allIdsT c1root2 ∧
      (dgDepAdd c1new2 c1root2).2 = 1) := by
  decide

/-- Claim C1 (amended): for a new graph node checked against an existing
node whose footprint has no control entries, if the footprints share at
least one name and at least one of the matching accesses is a write, and the
new node does not already appear among that root's transitive dependents,
then `dg_dep_add` creates at least one dependence edge, and in general the
number of dependents lists the new node is appended to equals its
contribution to `blocked_by`; if the new node's footprint shares names only
with read access on both sides against the root *and every node reachable
from it*, `dg_dep_add` creates no edge and contributes 0. -/
theorem c1_dep_add_edges (new : NData) (t : DNode) :
    (sharesWrite new.files (rootData t).files →
      noControl (rootData t).files →
      new.id ∉ allIdsT t →
      1 ≤ (dgDepAdd new t).2) ∧
    (new.id ∉ allIdsT t →
      (allIdsT (dgDepAdd new t).1).count new.id = (dgDepAdd new t).2) ∧
    ((∀ d ∈ allDataT t, noControl d.files ∧ ¬ sharesWrite new.files d.files) →
      dgDepAdd new t = (t, 0)) := by
  refine ⟨?_, ?_, ?_⟩
  · intro hs hctl hmem
    exact dgDepAdd_pos new t
      ((dgDepCheck_write_iff new (rootData t) hctl).mpr hs) hmem
  · exact dgDepAdd_occ new t
  · intro hall
    refine dgDepAdd_noWrite new t (fun d hd => ?_)
    rcases hall d hd with ⟨hctl, hnw⟩
    intro hw
    exact hnw ((dgDepCheck_write_iff new d hctl).mp hw)

/-- Witness for `c1_dep_add_edges` at concrete inputs. -/
theorem c1_dep_add_edges_witness :
    1 ≤ (dgDepAdd c1new c1root).2 ∧ dgDepAdd c1newR c1rootR = (c1rootR, 0) :=
  ⟨(c1_dep_add_edges c1new c1root).1 (by decide) (by decide) (by decide),
    (c1_dep_add_edges c1newR c1rootR).2.2 (by decide)⟩

/-! ### The command tree (`union node`, nodes.h) as used by the footprint
analyser.  `ncmd`/`ncont`/`nbreak` carry the argument texts (the `narg`
chain, with variable references already substituted in place by `arg_var`)
and the redirection chain; `nfile` is one redirection node (`NTO`,
`NCLOBBER`, `NFROM`, `NFROMTO`, `NAPPEND`) linked through `next`; `nother`
stands for every node type `dg_node_files` defaults on. -/

/-- The five redirection node types handled by `dg_file_reg`. -/
inductive RedirKind where
  | nto
  | nclobber
  | nfrom
  | nfromto
  | nappend
deriving DecidableEq, Repr

/-- A parsed command tree. -/
inductive Node where
  | ncmd (args : List String) (redirect : Option Node)
  | ncont (args : List String) (redirect : Option Node)
  | nbreak (args : List String) (redirect : Option Node)
  | nvar (assign : String)
  | npipe (cmdlist : List Node)
  | nbackgnd (inner : Node)
  | nand (ch1 ch2 : Node)
  | nor (ch1 ch2 : Node)
  | nsemi (ch1 ch2 : Node)
  | nwhile (ch1 ch2 : Node)
  | nuntil (ch1 ch2 : Node)
  | nif (test : Node) (ifpart : Option Node) (elsepart : Option Node)
  | nfile (kind : RedirKind) (fname : String) (next : Option Node)
  | nnot (com : Node)
  | nother

/-! ### args.c: arg_proc / dep_cont / dep_break -/

/-- Digit-accumulating loop of C `atoi`. -/
def atoiDigits : List Char → Int → Int
  | [], acc => acc
  | c :: rest, acc =>
      if c.isDigit then atoiDigits rest (acc * 10 + ((c.toNat : Int) - 48))
      else acc

/-- C `atoi`: skip whitespace, optional sign, then leading digits (0 when
there are none). -/
def atoi (s : String) : Int :=
  let l := s.toList.dropWhile (fun c => c = ' ' ∨ c = '\t' ∨ c = '\n' ∨ c = '\r')
  match l with
  | '-' :: rest => -(atoiDigits rest 0)
  | '+' :: rest => atoiDigits rest 0
  | _ => atoiDigits l 0

/-- `dep_cont` (args.c:103-127): `narg` is the argument after `continue`
(absent means 1), `nest` the local nest inside the tree being analysed,
`gnNest` the graph node's nest.  When the continue is not buried
(`cont_arg - nest > 0`) produce one control entry targeting
`graph_node->nest - cont_arg + 1`, floored at 1. -/
def depCont (narg : Option String) (nest gnNest : Int) : Option DgFile :=
  let contArg : Int := match narg with | none => 1 | some s => atoi s
  if 0 < contArg - nest then
    let t := gnNest - contArg + 1
    some ⟨none, if t < 1 then 1 else t, .cont⟩
  else none

/-- `dep_break` (args.c:130-154): symmetric to `dep_cont`. -/
def depBreak (narg : Option String) (nest gnNest : Int) : Option DgFile :=
  let breakArg : Int := match narg with | none => 1 | some s => atoi s
  if 0 < breakArg - nest then
    let t := gnNest - breakArg + 1
    some ⟨none, if t < 1 then 1 else t, .brk⟩
  else none

/-- `arg_proc` (args.c:18-49), the `arg_files` of dgraph.c's call site:
inspect the argument list of a simple command.  `arg_var` substitutes
variable references in place and always reports them resolvable (the
`WILDCARD` branch is dead) and `expandarg2` is a no-op, so the function
reduces to recognising the literal first arguments `continue` and `break`. -/
def argProc (args : List String) (nest gnNest : Int) : List DgFile :=
  match args with
  | [] => []
  | cmd :: rest =>
      if cmd = "continue" then (depCont rest.head? nest gnNest).toList
      else if cmd = "break" then (depBreak rest.head? nest gnNest).toList
      else []

/-! ### dg_node_files (dgraph.c:508-578) -/

/-- `dg_file_var` (dgraph.c:468-485): a `VAR=value` assignment becomes a
write entry on `$VAR` (the `$` sentinel keeps variables in a separate
namespace from files); `name_size` is the variable name length plus one. -/
def dgFileVar (assign : String) : DgFile :=
  let var := assign.takeWhile (fun c => c ≠ '=')
  ⟨some ("$" ++ var), (var.length : Int) + 1, .write⟩

/-- Access flag assigned by `dg_file_reg` (dgraph.c:500-503): read for
`NFROM`, write otherwise. -/
def regFlag : RedirKind → Access
  | .nfrom => .read
  | _ => .write

mutual
/-- `dg_node_files (n, nest, graph_node)` (dgraph.c:508-578): the footprint
of a command tree.  `gn` is the graph node's own nest (`graph_node->nest`,
read by `dep_cont`/`dep_break`).  Note the `++nest` in the `NWHILE`/`NUNTIL`
case: C pre-increments, so the *test* child `ch1` and the body child `ch2`
are both analysed at `nest + 1`. -/
def dgNodeFiles : Node → Int → Int → List DgFile
  | .ncmd args r, nest, gn => argProc args nest gn ++ dgNodeFilesOpt r nest gn
  | .ncont args r, nest, gn => argProc args nest gn ++ dgNodeFilesOpt r nest gn
  | .nbreak args r, nest, gn => argProc args nest gn ++ dgNodeFilesOpt r nest gn
  | .nvar assign, _, _ => [dgFileVar assign]
  | .npipe cmds, nest, gn => dgNodeFilesRev cmds nest gn
  | .nbackgnd inner, nest, gn => dgNodeFiles inner nest gn
  | .nand a b, nest, gn => dgNodeFiles a nest gn ++ dgNodeFiles b nest gn
  | .nor a b, nest, gn => dgNodeFiles a nest gn ++ dgNodeFiles b nest gn
  | .nsemi a b, nest, gn => dgNodeFiles a nest gn ++ dgNodeFiles b nest gn
  | .nwhile a b, nest, gn =>
      dgNodeFiles a (nest + 1) gn ++ dgNodeFiles b (nest + 1) gn
  | .nuntil a b, nest, gn =>
      dgNodeFiles a (nest + 1) gn ++ dgNodeFiles b (nest + 1) gn
  | .nif t i e, nest, gn =>
      dgNodeFiles t nest gn ++ (dgNodeFilesOpt i nest gn ++ dgNodeFilesOpt e nest gn)
  | .nfile k fname nxt, nest, gn =>
      ⟨some fname, (fname.length : Int) + 1, regFlag k⟩ :: dgNodeFilesOpt nxt nest gn
  | .nnot com, nest, gn => dgNodeFiles com nest gn
  | .nother, _, _ => []

/-- `dg_node_files` on a possibly-NULL node. -/
def dgNodeFilesOpt : Option Node → Int → Int → List DgFile
  | none, _, _ => []
  | some n, nest, gn => dgNodeFiles n nest gn

/-- The `NPIPE` loop of `dg_node_files` (dgraph.c:529-540): each stage's
files are appended *in front of* the accumulator, so the stages end up in
reverse order. -/
def dgNodeFilesRev : List Node → Int → Int → List DgFile
  | [], _, _ => []
  | n :: rest, nest, gn => dgNodeFilesRev rest nest gn ++ dgNodeFiles n nest gn
end

/-! ### C8: continue/break targets -/

theorem ifFloor_eq_max (t : Int) : (if t < 1 then (1 : Int) else t) = max 1 t := by
  rcases lt_or_le t 1 with h | h
  · rw [if_pos h, max_eq_left (le_of_lt h)]
  · rw [if_neg (not_lt.mpr h), max_eq_right h]

theorem depCont_eval (s : String) (N d : Int) (hs : atoi s = N) (hN : 1 ≤ N) :
    depCont (some s) 0 d = some ⟨none, max 1 (d - (N - 1)), .cont⟩ := by
  have e1 : d - (N - 1) = d - N + 1 := by ring
  unfold depCont
  simp only [hs]
  rw [e1, ← ifFloor_eq_max]
  rw [if_pos (show (0 : Int) < N - 0 by omega)]

theorem depBreak_eval (s : String) (N d : Int) (hs : atoi s = N) (hN : 1 ≤ N) :
    depBreak (some s) 0 d = some ⟨none, max 1 (d - (N - 1)), .brk⟩ := by
  have e1 : d - (N - 1) = d - N + 1 := by ring
  unfold depBreak
  simp only [hs]
  rw [e1, ← ifFloor_eq_max]
  rw [if_pos (show (0 : Int) < N - 0 by omega)]

theorem depCont_default (d : Int) (hd : 1 ≤ d) :
    depCont none 0 d = some ⟨none, d, .cont⟩ := by
  unfold depCont
  simp only
  rw [if_pos (show (0 : Int) < 1 - 0 by omega)]
  rw [show d - 1 + 1 = d by ring]
  rw [if_neg (show ¬ (d < 1) by omega)]

theorem depBreak_default (d : Int) (hd : 1 ≤ d) :
    depBreak none 0 d = some ⟨none, d, .brk⟩ := by
  unfold depBreak
  simp only
  rw [if_pos (show (0 : Int) < 1 - 0 by omega)]
  rw [show d - 1 + 1 = d by ring]
  rw [if_neg (show ¬ (d < 1) by omega)]

theorem depCont_buried (s : String) (nest gn : Int) (h : atoi s - nest ≤ 0) :
    depCont (some s) nest gn = none := by
  unfold depCont
  simp only
  rw [if_neg (show ¬ (0 < atoi s - nest) by omega)]

theorem argProc_continue (rest : List String) (nest gn : Int) :
    argProc ("continue" :: rest) nest gn = (depCont rest.head? nest gn).toList := by
  simp [argProc]

theorem argProc_break (rest : List String) (nest gn : Int) :
    argProc ("break" :: rest) nest gn = (depBreak rest.head? nest gn).toList := by
  simp [argProc]

theorem dgNodeFiles_ncmd (args : List String) (nest gn : Int) :
    dgNodeFiles (.ncmd args none) nest gn = argProc args nest gn := by
  simp [dgNodeFiles, dgNodeFilesOpt]

/-- Claim C8: for every command `continue N` or `break N` analysed at a node
of positive nest depth `d` (with `N ≥ 1`, and `N` defaulting to 1 when no
argument is given), the footprint is a single control entry whose effective
target nest is `d - (N - 1)` floored at 1; in particular when `N` exceeds
the nest the target is clamped to 1 and no target ever lies below 1. -/
theorem c8_continue_break_target (s : String) (N d : Int)
    (hs : atoi s = N) (hN : 1 ≤ N) (hd : 1 ≤ d) :
    dgNodeFiles (.ncmd ["continue", s] none) 0 d = [⟨none, max 1 (d - (N - 1)), .cont⟩] ∧
    dgNodeFiles (.ncmd ["break", s] none) 0 d = [⟨none, max 1 (d - (N - 1)), .brk⟩] ∧
    dgNodeFiles (.ncmd ["continue"] none) 0 d = [⟨none, d, .cont⟩] ∧
    dgNodeFiles (.ncmd ["break"] none) 0 d = [⟨none, d, .brk⟩] ∧
    (1 : Int) ≤ max 1 (d - (N - 1)) := by
  refine ⟨?_, ?_, ?_, ?_, le_max_left _ _⟩
  · rw [dgNodeFiles_ncmd, argProc_continue]
    simp [depCont_eval s N d hs hN]
  · rw [dgNodeFiles_ncmd, argProc_break]
    simp [depBreak_eval s N d hs hN]
  · rw [dgNodeFiles_ncmd, argProc_continue]
    simp [depCont_default d hd]
  · rw [dgNodeFiles_ncmd, argProc_break]
    simp [depBreak_default d hd]

/-- Witness for `c8_continue_break_target` at `continue 2` / `break 2` in a
node nested at depth 1 (target clamped to 1). -/
theorem c8_continue_break_target_witness :
    dgNodeFiles (.ncmd ["continue", "2"] none) 0 1 = [⟨none, 1, .cont⟩] ∧
    dgNodeFiles (.ncmd ["break", "2"] none) 0 1 = [⟨none, 1, .brk⟩] ∧
    dgNodeFiles (.ncmd ["continue"] none) 0 1 = [⟨none, 1, .cont⟩] ∧
    dgNodeFiles (.ncmd ["break"] none) 0 1 = [⟨none, 1, .brk⟩] ∧
    (1 : Int) ≤ max 1 (1 - (2 - 1)) := by
  have h := c8_continue_break_target "2" 2 1 (by decide) (by decide) (by decide)
  simpa using h

/-! ### C9: nest accounting inside while/until -/

mutual
/-- Modelled from the spec's words, for comparison with `dgNodeFiles` (the
refinement target of claim C9): identical to `dg_node_files` except that in
the `while`/`until` case the *test* is analysed at the enclosing,
unincremented nest and only the body at `nest + 1`. -/
def dgNodeFilesSpec : Node → Int → Int → List DgFile
  | .ncmd args r, nest, gn => argProc args nest gn ++ dgNodeFilesSpecOpt r nest gn
  | .ncont args r, nest, gn => argProc args nest gn ++ dgNodeFilesSpecOpt r nest gn
  | .nbreak args r, nest, gn => argProc args nest gn ++ dgNodeFilesSpecOpt r nest gn
  | .nvar assign, _, _ => [dgFileVar assign]
  | .npipe cmds, nest, gn => dgNodeFilesSpecRev cmds nest gn
  | .nbackgnd inner, nest, gn => dgNodeFilesSpec inner nest gn
  | .nand a b, nest, gn => dgNodeFilesSpec a nest gn ++ dgNodeFilesSpec b nest gn
  | .nor a b, nest, gn => dgNodeFilesSpec a nest gn ++ dgNodeFilesSpec b nest gn
  | .nsemi a b, nest, gn => dgNodeFilesSpec a nest gn ++ dgNodeFilesSpec b nest gn
  | .nwhile a b, nest, gn =>
      dgNodeFilesSpec a nest gn ++ dgNodeFilesSpec b (nest + 1) gn
  | .nuntil a b, nest, gn =>
      dgNodeFilesSpec a nest gn ++ dgNodeFilesSpec b (nest + 1) gn
  | .nif t i e, nest, gn =>
      dgNodeFilesSpec t nest gn ++
        (dgNodeFilesSpecOpt i nest gn ++ dgNodeFilesSpecOpt e nest gn)
  | .nfile k fname nxt, nest, gn =>
      ⟨some fname, (fname.length : Int) + 1, regFlag k⟩ ::
        dgNodeFilesSpecOpt nxt nest gn
  | .nnot com, nest, gn => dgNodeFilesSpec com nest gn
  | .nother, _, _ => []

/-- Spec-worded footprint on a possibly-NULL node. -/
def dgNodeFilesSpecOpt : Option Node → Int → Int → List DgFile
  | none, _, _ => []
  | some n, nest, gn => dgNodeFilesSpec n nest gn

/-- Spec-worded footprint of a pipeline. -/
def dgNodeFilesSpecRev : List Node → Int → Int → List DgFile
  | [], _, _ => []
  | n :: rest, nest, gn => dgNodeFilesSpecRev rest nest gn ++ dgNodeFilesSpec n nest gn
end

/-- C9 counterexample input: `while continue; do x; done` as the command of
a graph node of nest 1. -/
def c9node : Node := .nwhile (.ncmd ["continue"] none) (.ncmd ["x"] none)

/-- Claim C9 (as stated) is false on the code: for a while-construct whose
test is a bare `continue` in a graph node of nest 1, the code analyses the
test at the *incremented* nest, so the buried-continue check
(`cont_arg - nest > 0` in args.c) suppresses the control entry and the
footprint is empty — while the spec's version (test at the enclosing nest)
yields one control entry. -/
theorem c9_counterexample :
    dgNodeFiles c9node 0 1 = [] ∧
    dgNodeFilesSpec c9node 0 1 = [⟨none, 1, .cont⟩] ∧
    dgNodeFiles c9node 0 1 ≠ dgNodeFilesSpec c9node 0 1 := by
  decide

/-- Claim C9 (amended): in footprint computation for a while/until
construct the nest depth is incremented by exactly 1 for the entries of the
test *and* of the body (C pre-increments `nest` before analysing the test
child); the result is the concatenation of the test's entries followed by
the body's entries.  Consequently a `continue N` with `N ≤ nest + 1`
standing as the test contributes no control entry. -/
theorem c9_while_nest (t b : Node) (nest gn : Int) :
    (dgNodeFiles (.nwhile t b) nest gn =
      dgNodeFiles t (nest + 1) gn ++ dgNodeFiles b (nest + 1) gn) ∧
    (dgNodeFiles (.nuntil t b) nest gn =
      dgNodeFiles t (nest + 1) gn ++ dgNodeFiles b (nest + 1) gn) ∧
    (∀ s : String, atoi s ≤ 1 + nest →
      dgNodeFiles (.nwhile (.ncmd ["continue", s] none) b) nest gn =
        dgNodeFiles b (nest + 1) gn) := by
  refine ⟨by simp [dgNodeFiles], by simp [dgNodeFiles], ?_⟩
  intro s hle
  have h1 : dgNodeFiles (.nwhile (.ncmd ["continue", s] none) b) nest gn =
      dgNodeFiles (.ncmd ["continue", s] none) (nest + 1) gn ++
        dgNodeFiles b (nest + 1) gn := by
    simp [dgNodeFiles]
  rw [h1, dgNodeFiles_ncmd, argProc_continue]
  rw [show ([s].head? : Option String) = some s from rfl]
  rw [depCont_buried s (nest + 1) gn (by omega)]
  simp

/-- Witness for `c9_while_nest`: a `continue 1` test contributes nothing at
nest 0. -/
theorem c9_while_nest_witness :
    dgNodeFiles (.nwhile (.ncmd ["continue", "1"] none) (.ncmd ["x"] none)) 0 1 =
      dgNodeFiles (.ncmd ["x"] none) 1 1 :=
  (c9_while_nest (.ncmd ["continue", "1"] none) (.ncmd ["x"] none) 0 1).2.2 "1"
    (by decide)

/-! ### C2/C3: dg_graph_add_node (dgraph.c:198-222), the dependent
promotion of dg_graph_remove (dgraph.c:253-259) and
dg_frontier_dep_recheck (dgraph.c:781-794) -/

/-- Frontier node types (the `DG_N*` enum of dgraph.h). -/
inductive FType where
  | ncmd
  | nand
  | nor
  | nif
  | nwhile
  | nuntil
  | nfor
deriving DecidableEq, Repr

/-- Loop kinds (`DG_NWHILE || DG_NUNTIL || DG_NFOR`). -/
def isLoopF : FType → Bool
  | .nwhile => true
  | .nuntil => true
  | .nfor => true
  | _ => false

/-- A frontier node (`struct dg_fnode`) as read by `dg_graph_add_node`:
its type and its graph node with dependents. -/
structure FNode where
  ftype : FType
  tree : DNode

/-- The `for (; iter; iter = iter->next)` loop of `dg_graph_add_node`
(dgraph.c:210-218): run `dg_dep_add` of the new node against each frontier
root in list order, accumulating contributed dependencies — but stop (and
leave the remaining roots unvisited) as soon as a loop-type root contributed
a nonzero count.  Returns the updated frontier roots, the summed
contributions, and whether the early return was taken. -/
def addNodeLoop (new : NData) : List FNode → List FNode × Nat × Bool
  | [] => ([], 0, false)
  | f :: rest =>
      let p := dgDepAdd new f.tree
      if isLoopF f.ftype = true ∧ p.2 ≠ 0 then
        (⟨f.ftype, p.1⟩ :: rest, p.2, true)
      else
        let q := addNodeLoop new rest
        (⟨f.ftype, p.1⟩ :: q.1, p.2 + q.2.1, q.2.2)

/-- `dg_graph_add_node` (dgraph.c:198-222): `d0` is the node's dependency
count on entry (0 for a fresh node, the decremented count on a recheck).
Returns the updated frontier, the node's resulting `dependencies`, and
whether the node was handed to `dg_frontier_add` (which happens exactly when
the loop ran to completion and the count is zero). -/
def dgGraphAddNode (d0 : Int) (new : NData) (front : List FNode) :
    List FNode × Int × Bool :=
  let r := addNodeLoop new front
  let total := d0 + (r.2.1 : Int)
  (r.1, total, decide (r.2.2 = false ∧ total = 0))

/-- The dependent-promotion loop of `dg_graph_remove` (dgraph.c:253-259):
each dependent, given as `(id, dependencies)`, is decremented, and promoted
to the frontier (`dg_frontier_add`) exactly when the decremented count
reaches zero.  Returns the updated counts and the promoted ids in order. -/
def dgGraphRemoveDeps : List (Nat × Int) → List (Nat × Int) × List Nat
  | [] => ([], [])
  | (i, c) :: rest =>
      let r := dgGraphRemoveDeps rest
      ((i, c - 1) :: r.1, (if c - 1 = 0 then [i] else []) ++ r.2)

/-- `dg_frontier_dep_recheck` (dgraph.c:781-794): the parent's deferred
dependents, each with its current count, are taken off the parent, their
count is decremented, and each is re-run through `dg_graph_add_node`
starting at `check_start`.  Returns the final frontier and, per dependent,
`(id, resulting count, re-added?)`. -/
def dgFrontierDepRecheck (front : List FNode) :
    List (NData × Int) → List FNode × List (Nat × Int × Bool)
  | [] => (front, [])
  | (d, c) :: rest =>
      let r := dgGraphAddNode (c - 1) d front
      let rec2 := dgFrontierDepRecheck r.1 rest
      (rec2.1, (d.id, r.2.1, r.2.2) :: rec2.2)

/-- Claim C2: the operations that put nodes on the frontier preserve the
zero-blocked invariant — `dg_graph_add_node` enqueues a node only when its
computed dependency count is zero; `dg_graph_remove` promotes a dependent
exactly when its decremented count reaches zero (all counts being
decremented by exactly one); and `dg_frontier_dep_recheck` re-adds a
deferred dependent only if the recheck leaves its count at zero. -/
theorem c2_frontier_zero_blocked :
    (∀ (d0 : Int) (new : NData) (front : List FNode),
      (dgGraphAddNode d0 new front).2.2 = true →
        (dgGraphAddNode d0 new front).2.1 = 0) ∧
    (∀ deps : List (Nat × Int),
      (dgGraphRemoveDeps deps).1 = deps.map (fun p => (p.1, p.2 - 1)) ∧
      (dgGraphRemoveDeps deps).2 =
        (deps.filter (fun p => p.2 - 1 = 0)).map Prod.fst) ∧
    (∀ (front : List FNode) (deps : List (NData × Int)),
      ∀ x ∈ (dgFrontierDepRecheck front deps).2, x.2.2 = true → x.2.1 = 0) := by
  have haddz : ∀ (d0 : Int) (new : NData) (front : List FNode),
      (dgGraphAddNode d0 new front).2.2 = true →
        (dgGraphAddNode d0 new front).2.1 = 0 := by
    intro d0 new front h
    simp only [dgGraphAddNode] at *
    exact (of_decide_eq_true h).2
  refine ⟨haddz, ?_, ?_⟩
  · intro deps
    induction deps with
    | nil => simp [dgGraphRemoveDeps]
    | cons p rest ih =>
      rcases p with ⟨i, c⟩
      rw [dgGraphRemoveDeps]
      refine ⟨by simp [ih.1], ?_⟩
      by_cases hc : c - 1 = 0
      · simp [hc, ih.2]
      · simp [hc, ih.2]
  · intro front deps
    induction deps generalizing front with
    | nil => simp [dgFrontierDepRecheck]
    | cons p rest ih =>
      rcases p with ⟨d, c⟩
      intro x hx hflag
      rw [dgFrontierDepRecheck] at hx
      simp only [List.mem_cons] at hx
      rcases hx with rfl | hx
      · simp only at hflag
        simpa using haddz _ _ _ hflag
      · exact ih _ x hx hflag
  
/-- Witness for `c2_frontier_zero_blocked`: an unblocked node is enqueued
with count 0 on the empty frontier, and a recheck that re-adds reports
count 0. -/
theorem c2_frontier_zero_blocked_witness :
    (dgGraphAddNode 0 c1newR []).2.1 = 0 ∧
    ((c1newR.id, (0 : Int), true) : Nat × Int × Bool).2.1 = 0 :=
  ⟨c2_frontier_zero_blocked.1 0 c1newR [] (by decide),
    c2_frontier_zero_blocked.2.2 [] [(c1newR, 1)] (c1newR.id, (0 : Int), true)
      (by decide) (by decide)⟩

/-- One root's dep-walk contribution (`dg_dep_add` return value computed
against that root alone). -/
def rootContrib (new : NData) (f : FNode) : Nat := (dgDepAdd new f.tree).2

/-- The sum dg_graph_add_node actually accumulates: contributions of the
roots in list order up to and including the first loop-kind root whose
contribution is nonzero. -/
def loopStopSum (new : NData) : List FNode → Nat
  | [] => 0
  | f :: rest =>
      let c := rootContrib new f
      if isLoopF f.ftype = true ∧ c ≠ 0 then c else c + loopStopSum new rest

/-- C3 counterexample frontier: a while-type root writing `a` followed by a
simple root writing `a`. -/
def c3front : List FNode :=
  [⟨.nwhile, .mk ⟨0, [wfile "a"], 0, 0, []⟩ .nil⟩,
   ⟨.ncmd, .mk ⟨1, [wfile "a"], 0, 0, []⟩ .nil⟩]

/-- C3 counterexample new node: writes `a`. -/
def c3new : NData := ⟨2, [wfile "a"], 0, 0, []⟩

/-- Claim C3 (as stated) is false on the code: with a loop-kind frontier
root that the new node depends on followed by another conflicting root,
`dg_graph_add_node` stops at the loop and the resulting `blocked_by` is 1,
not the sum (2) of the dep-walk contributions over all frontier roots. -/
theorem c3_counterexample :
    (dgGraphAddNode 0 c3new c3front).2.1 = 1 ∧
    ((c3front.map (rootContrib c3new)).sum : Int) = 2 ∧
    (dgGraphAddNode 0 c3new c3front).2.1 ≠
      ((c3front.map (rootContrib c3new)).sum : Int) := by
  decide

/-- Claim C3 (amended): a newly added node's resulting `blocked_by` equals
its count on entry plus the sum of the dep-walk (`dg_dep_add`)
contributions over the frontier roots in list order *up to and including
the first loop-kind root (while/until/for) whose contribution is nonzero*;
when no loop-kind root contributes, this is the sum over all frontier
roots. -/
theorem c3_blocked_by_sum :
    (∀ (d0 : Int) (new : NData) (front : List FNode),
      (dgGraphAddNode d0 new front).2.1 = d0 + (loopStopSum new front : Int)) ∧
    (∀ (d0 : Int) (new : NData) (front : List FNode),
      (addNodeLoop new front).2.2 = false →
      (dgGraphAddNode d0 new front).2.1 =
        d0 + ((front.map (rootContrib new)).sum : Int)) := by
  have hmain : ∀ (new : NData) (front : List FNode),
      (addNodeLoop new front).2.1 = loopStopSum new front := by
    intro new front
    induction front with
    | nil => simp [addNodeLoop, loopStopSum]
    | cons f rest ih =>
      rw [addNodeLoop, loopStopSum]
      by_cases hstop : isLoopF f.ftype = true ∧ (dgDepAdd new f.tree).2 ≠ 0
      · simp only [rootContrib, if_pos hstop]
      · simp only [rootContrib, if_neg hstop]
        simpa using ih
  have hfull : ∀ (new : NData) (front : List FNode),
      (addNodeLoop new front).2.2 = false →
      loopStopSum new front = (front.map (rootContrib new)).sum := by
    intro new front
    induction front with
    | nil => intro _; simp [loopStopSum]
    | cons f rest ih =>
      intro hfl
      rw [addNodeLoop] at hfl
      rw [loopStopSum]
      by_cases hstop : isLoopF f.ftype = true ∧ (dgDepAdd new f.tree).2 ≠ 0
      · rw [if_pos hstop] at hfl
        simp at hfl
      · rw [if_neg hstop] at hfl
        simp only at hfl
        simp only [rootContrib, if_neg hstop, List.map_cons, List.sum_cons]
        rw [ih (by simpa using hfl)]
  refine ⟨?_, ?_⟩
  · intro d0 new front
    simp only [dgGraphAddNode]
    rw [hmain]
  · intro d0 new front hfl
    simp only [dgGraphAddNode]
    rw [hmain, hfull new front hfl]

/-- Witness for `c3_blocked_by_sum`: on a loop-free frontier the count is
the full sum. -/
theorem c3_blocked_by_sum_witness :
    (dgGraphAddNode 0 c3new [⟨.ncmd, .mk ⟨1, [wfile "a"], 0, 0, []⟩ .nil⟩]).2.1 =
      0 + (([⟨.ncmd, .mk ⟨1, [wfile "a"], 0, 0, []⟩ .nil⟩].map
        (rootContrib c3new)).sum : Int) :=
  c3_blocked_by_sum.2 0 c3new _ (by decide)

/-! ### Graph-node flags (dgraph.h:41-47) -/

def KEEP_CMD : Nat := 0x00
def FREE_CMD : Nat := 0x01
def TEST_CMD : Nat := 0x02
def BODY_CMD : Nat := 0x04
def TEST_STATUS : Nat := 0x08
def BODY_STATUS : Nat := 0x10
def CANCELLED : Nat := 0x20

/-! ### C4: dg_frontier_parent_proc (dgraph.c:855-944) -/

/-- `n->nbinary.ch1` for the binary node types. -/
def nbinCh1 : Node → Option Node
  | .nand a _ => some a
  | .nor a _ => some a
  | .nsemi a _ => some a
  | .nwhile a _ => some a
  | .nuntil a _ => some a
  | _ => none

/-- `n->nbinary.ch2` for the binary node types. -/
def nbinCh2 : Node → Option Node
  | .nand _ b => some b
  | .nor _ b => some b
  | .nsemi _ b => some b
  | .nwhile _ b => some b
  | .nuntil _ b => some b
  | _ => none

/-- `n->nif.ifpart`. -/
def nifThen : Node → Option Node
  | .nif _ i _ => i
  | _ => none

/-- `n->nif.elsepart`. -/
def nifElse : Node → Option Node
  | .nif _ _ e => e
  | _ => none

/-- The fields of the completed child (the `rem` frontier node and its graph
node) that `dg_frontier_parent_proc` reads: whether its command is `NNOT`,
its graph node's flag and iteration, and its reported status. -/
structure RemSt where
  isNot : Bool
  flag : Nat
  nodeIteration : Int
  status : Int

/-- The fields of the parent wrapper (`rem->node->parent`) that
`dg_frontier_parent_proc` reads and writes. -/
structure PState where
  ftype : FType
  status : Int
  iteration : Int
  files : List DgFile
  dependents : List Nat
  cmd : Node

/-- Externally visible actions of the controller: expanding a command list
(`dg_frontier_expand`, with the flag passed and the wrapper's iteration at
the time of the call) and rechecking deferred dependents
(`dg_frontier_dep_recheck`). -/
inductive Effect where
  | expand (n : Node) (flag : Nat) (iter : Int)
  | recheck

/-- C `!status`. -/
def bnot (s : Int) : Int := if s = 0 then 1 else 0

/-- `dg_frontier_expand (parent, n, flag)` does nothing when `n` is NULL. -/
def expandEff (n : Option Node) (flag : Nat) (iter : Int) : List Effect :=
  match n with
  | none => []
  | some m => [.expand m flag iter]

/-- `dg_frontier_parent_proc (rem)` (dgraph.c:855-944): status relay and
branch decision.  Returns the parent's new state (unchanged `none` when the
child has no parent) and the effect list in order.  Mirrors the C sequence:
NNOT inversion of the child's status, body-status relay when the child's
iteration matches, early return unless the child carries `TEST_STATUS`,
then the per-kind switch.  In the while/until continue-turn the saved
files and dependents are restored afterwards, so they are net unchanged. -/
def dgFrontierParentProc (rem : RemSt) (parent : Option PState) :
    Option PState × List Effect :=
  match parent with
  | none => (none, [])
  | some p0 =>
    let s := if rem.isNot then bnot rem.status else rem.status
    let p := if rem.flag &&& BODY_STATUS = BODY_STATUS ∧
                rem.nodeIteration = p0.iteration
             then { p0 with status := s } else p0
    if rem.flag &&& TEST_STATUS ≠ TEST_STATUS then (some p, [])
    else
      match p.ftype with
      | .nand =>
          (some { p with files := [], ftype := .ncmd },
           (if s = 0 then expandEff (nbinCh2 p.cmd) BODY_CMD p.iteration
            else []) ++ [.recheck])
      | .nor =>
          (some { p with files := [], ftype := .ncmd },
           (if s ≠ 0 then expandEff (nbinCh2 p.cmd) BODY_CMD p.iteration
            else []) ++ [.recheck])
      | .nif =>
          (some { p with files := [], ftype := .ncmd },
           expandEff (if s = 0 then nifThen p.cmd else nifElse p.cmd)
             BODY_CMD p.iteration ++ [.recheck])
      | .nwhile =>
          if s = 0 then
            (some { p with iteration := p.iteration + 1 },
             expandEff (nbinCh2 p.cmd) BODY_CMD p.iteration ++
               expandEff (nbinCh1 p.cmd) TEST_CMD (p.iteration + 1))
          else
            (some { p with files := [], ftype := .ncmd }, [.recheck])
      | .nuntil =>
          if s ≠ 0 then
            (some { p with iteration := p.iteration + 1 },
             expandEff (nbinCh2 p.cmd) BODY_CMD p.iteration ++
               expandEff (nbinCh1 p.cmd) TEST_CMD (p.iteration + 1))
          else
            (some { p with files := [], ftype := .ncmd }, [.recheck])
      | _ => (some { p with status := s }, [])

/-- Claim C4: when a test child of a while wrapper completes with status 0
(resp. of an until wrapper with status ≠ 0), the controller expands the
body with body-status reporting (`BODY_CMD`, at the current iteration),
then increments the wrapper's iteration and expands the test again
(`TEST_CMD`, at the new iteration) for the next turn; on the opposite
status the wrapper's saved dependents are restored and rechecked and its
kind becomes `DG_NCMD` (simple, removable). -/
theorem c4_while_until_turns (p q : PState) (tn bn tu bu : Node) (rem : RemSt)
    (hpw : p.ftype = .nwhile) (hpc : p.cmd = .nwhile tn bn)
    (hqu : q.ftype = .nuntil) (hqc : q.cmd = .nuntil tu bu)
    (hflag : rem.flag = TEST_STATUS) (hnot : rem.isNot = false) :
    (rem.status = 0 →
      dgFrontierParentProc rem (some p) =
        (some { p with iteration := p.iteration + 1 },
         [.expand bn BODY_CMD p.iteration, .expand tn TEST_CMD (p.iteration + 1)])) ∧
    (rem.status ≠ 0 →
      dgFrontierParentProc rem (some p) =
        (some { p with files := [], ftype := .ncmd }, [.recheck])) ∧
    (rem.status ≠ 0 →
      dgFrontierParentProc rem (some q) =
        (some { q with iteration := q.iteration + 1 },
         [.expand bu BODY_CMD q.iteration, .expand tu TEST_CMD (q.iteration + 1)])) ∧
    (rem.status = 0 →
      dgFrontierParentProc rem (some q) =
        (some { q with files := [], ftype := .ncmd }, [.recheck])) := by
  have hb : ¬ (rem.flag &&& BODY_STATUS = BODY_STATUS ∧
      rem.nodeIteration = p.iteration) := by
    rintro ⟨h1, _⟩
    rw [hflag] at h1
    exact absurd h1 (by decide)
  have hbq : ¬ (rem.flag &&& BODY_STATUS = BODY_STATUS ∧
      rem.nodeIteration = q.iteration) := by
    rintro ⟨h1, _⟩
    rw [hflag] at h1
    exact absurd h1 (by decide)
  have ht : ¬ (rem.flag &&& TEST_STATUS ≠ TEST_STATUS) := by
    rw [hflag]
    decide
  refine ⟨fun hs => ?_, fun hs => ?_, fun hs => ?_, fun hs => ?_⟩ <;>
    simp only [dgFrontierParentProc, hnot, if_neg hb, if_neg hbq, if_neg ht,
      if_false, Bool.false_eq_true, hpw, hqu, hpc, hqc, hs, nbinCh1, nbinCh2,
      expandEff, if_pos, ite_not] <;>
    simp [hs, expandEff, nbinCh1, nbinCh2, hpc, hqc]

/-- Witness for `c4_while_until_turns`: a concrete while wrapper whose test
reported status 0 spawns body then next test, and a concrete until wrapper
with status 0 becomes simple. -/
theorem c4_while_until_turns_witness :
    dgFrontierParentProc ⟨false, TEST_STATUS, 0, 0⟩
        (some ⟨.nwhile, 0, 0, [], [], .nwhile .nother .nother⟩) =
      (some ⟨.nwhile, 0, 1, [], [], .nwhile .nother .nother⟩,
       [.expand .nother BODY_CMD 0, .expand .nother TEST_CMD 1]) ∧
    dgFrontierParentProc ⟨false, TEST_STATUS, 0, 0⟩
        (some ⟨.nuntil, 0, 0, [], [], .nuntil .nother .nother⟩) =
      (some ⟨.ncmd, 0, 0, [], [], .nuntil .nother .nother⟩, [.recheck]) := by
  have h1 := (c4_while_until_turns
    ⟨.nwhile, 0, 0, [], [], .nwhile .nother .nother⟩
    ⟨.nuntil, 0, 0, [], [], .nuntil .nother .nother⟩
    .nother .nother .nother .nother ⟨false, TEST_STATUS, 0, 0⟩
    rfl rfl rfl rfl rfl rfl).1 rfl
  have h2 := (c4_while_until_turns
    ⟨.nwhile, 0, 0, [], [], .nwhile .nother .nother⟩
    ⟨.nuntil, 0, 0, [], [], .nuntil .nother .nother⟩
    .nother .nother .nother .nother ⟨false, TEST_STATUS, 0, 0⟩
    rfl rfl rfl rfl rfl rfl).2.2.2 rfl
  exact ⟨h1, h2⟩

/-! ### C5: dg_cancel_loop / dg_cancel_cmd / dg_break (dgraph.c:607-684) -/

/-- The cancel kind `dg_cancel_loop` dispatches on (`NCONT` / `NBREAK`). -/
inductive CKind where
  | ncont
  | nbreak
deriving DecidableEq, Repr

/-- The per-dependent test of `dg_cancel_loop` (dgraph.c:641-648): climb the
dependent's parent chain to the target nest; the dependent is cancelled when
the landing node sits exactly at the target nest and its iteration equals
the jump's iteration (continue) or is at least it (break). -/
def cancelMatches (iter nest : Int) (ck : CKind) (d : NData) : Bool :=
  let land := climb (chainOf d) nest
  decide (land.1 = nest ∧
    ((ck = .ncont ∧ land.2 = iter) ∨ (ck = .nbreak ∧ iter ≤ land.2)))

mutual
/-- `dg_cancel_loop` (dgraph.c:626-666) as the list of cancelled node ids:
walk the direct dependents; a matching dependent is handed to
`dg_cancel_cmd` (which recurses into *its* dependents), a non-matching one
is kept and its subtree is left unvisited. -/
def cancelLoopIds (iter nest : Int) (ck : CKind) : DForest → List Nat
  | .nil => []
  | .cons d rest =>
      (if cancelMatches iter nest ck (rootData d) then
        cancelCmdIds iter nest ck d
      else []) ++ cancelLoopIds iter nest ck rest

/-- `dg_cancel_cmd` (dgraph.c:669-684): first cancel the node's own
matching dependents, then the node itself is removed (when only blocked by
the canceller) or marked `CANCELLED`; either way it counts as cancelled. -/
def cancelCmdIds (iter nest : Int) (ck : CKind) : DNode → List Nat
  | .mk dd ddeps => cancelLoopIds iter nest ck ddeps ++ [dd.id]
end

/-- A node of the dependent structure is reached by the cancellation walk
exactly when there is a chain of *matching* dependents leading to it: the
walk enters a dependent's subtree only after cancelling that dependent. -/
inductive CancelReach (iter nest : Int) (ck : CKind) : DForest → Nat → Prop where
  | head (d : DNode) (rest : DForest) :
      cancelMatches iter nest ck (rootData d) = true →
      CancelReach iter nest ck (.cons d rest) (rootData d).id
  | inside (d : DNode) (rest : DForest) (x : Nat) :
      cancelMatches iter nest ck (rootData d) = true →
      CancelReach iter nest ck (depsOf d) x →
      CancelReach iter nest ck (.cons d rest) x
  | tail (d : DNode) (rest : DForest) (x : Nat) :
      CancelReach iter nest ck rest x →
      CancelReach iter nest ck (.cons d rest) x

theorem cancelLoopIds_reach (iter nest : Int) (ck : CKind) :
    ∀ (f : DForest) (x : Nat),
      x ∈ cancelLoopIds iter nest ck f → CancelReach iter nest ck f x
  | .nil, x, hx => absurd hx (by simp [cancelLoopIds])
  | .cons (.mk dd ddeps) rest, x, hx => by
      rw [cancelLoopIds] at hx
      rcases List.mem_append.mp hx with h | h
      · by_cases hm : cancelMatches iter nest ck (rootData (.mk dd ddeps)) = true
        · rw [if_pos hm, cancelCmdIds] at h
          rcases List.mem_append.mp h with h2 | h2
          · exact .inside _ rest x hm
              (cancelLoopIds_reach iter nest ck ddeps x h2)
          · rw [List.mem_singleton] at h2
            subst h2
            exact .head _ rest hm
        · rw [if_neg hm] at h
          simp at h
      · exact .tail _ rest x (cancelLoopIds_reach iter nest ck rest x h)

theorem reach_cancelLoopIds (iter nest : Int) (ck : CKind) (f : DForest)
    (x : Nat) (h : CancelReach iter nest ck f x) :
    x ∈ cancelLoopIds iter nest ck f := by
  induction h with
  | head d rest hm =>
      cases d with
      | mk dd ddeps =>
        rw [cancelLoopIds]
        refine List.mem_append.mpr (Or.inl ?_)
        rw [if_pos hm, cancelCmdIds]
        exact List.mem_append.mpr (Or.inr (by simp [rootData]))
  | inside d rest x hm _ ih =>
      cases d with
      | mk dd ddeps =>
        rw [cancelLoopIds]
        refine List.mem_append.mpr (Or.inl ?_)
        rw [if_pos hm, cancelCmdIds]
        simp only [depsOf] at ih
        exact List.mem_append.mpr (Or.inl ih)
  | tail d rest x _ ih =>
      rw [cancelLoopIds]
      exact List.mem_append.mpr (Or.inr ih)

/-- The ancestor walk of `dg_break` (dgraph.c:607-623) restricted to the
wrapper kinds it rewrites: at each level, a loop-kind parent
(`DG_NWHILE`/`DG_NUNTIL`/`DG_NFOR`) is flipped to `DG_NCMD` before the walk
recurses to the next parent. -/
def dgBreakFlip : List FType → List FType
  | [] => []
  | t :: rest => (if isLoopF t then FType.ncmd else t) :: dgBreakFlip rest

/-- C5 counterexample: the target's only direct dependent is of iteration 1
(not matching a continue of iteration 0), and *its* dependent is of
iteration 0 (matching). -/
def c5forest : DForest :=
  .cons (.mk ⟨1, [], 1, 1, [(0, 0)]⟩
    (.cons (.mk ⟨2, [], 1, 0, [(0, 0)]⟩ .nil) .nil)) .nil

/-- Claim C5 (as stated) is false on the code: node 2 is a descendant of
the target whose iteration at the target nest equals the continue's
iteration, yet the cancellation walk does not cancel it, because the walk
never descends into its non-matching parent (node 1). -/
theorem c5_counterexample :
    (∃ d ∈ allDataF c5forest, d.id = 2 ∧ cancelMatches 0 1 .ncont d = true) ∧
    2 ∉ cancelLoopIds 0 1 .ncont c5forest := by
  decide

/-- Claim C5 (amended): cancellation cancels exactly the descendants of the
target that are reachable through a chain of dependents which all satisfy
the iteration rule — iteration at the target nest equal to the jump's
(continue) or at least it (break); descendants behind a non-matching
dependent are not visited.  For break, every wrapper of loop kind on the
parent walk has its kind flipped to `DG_NCMD` (simple) and every other kind
is left unchanged. -/
theorem c5_cancel_reach :
    (∀ (iter nest : Int) (ck : CKind) (f : DForest) (x : Nat),
      x ∈ cancelLoopIds iter nest ck f ↔ CancelReach iter nest ck f x) ∧
    (∀ l : List FType,
      dgBreakFlip l = l.map (fun ty => if isLoopF ty then FType.ncmd else ty)) := by
  constructor
  · intro iter nest ck f x
    exact ⟨cancelLoopIds_reach iter nest ck f x, reach_cancelLoopIds iter nest ck f x⟩
  · intro l
    induction l with
    | nil => rfl
    | cons t rest ih => simp [dgBreakFlip, ih]

/-! ### C6: dg_graph_run (dgraph.c:154-182) -/

/-- The fields of a frontier entry `dg_graph_run` reads: its identity, its
graph node's command, and the graph node's flag. -/
structure RWrap where
  id : Nat
  cmd : Node
  flag : Nat

/-- `command->type == NCONT || command->type == NBREAK`. -/
def isContBreak : Node → Bool
  | .ncont _ _ => true
  | .nbreak _ _ => true
  | _ => false

/-- The run list together with the `run_next` cursor (the id of the first
not-yet-taken wrapper, `none` when every wrapper has been handed out). -/
structure RunSt where
  runList : List RWrap
  runNext : Option Nat

/-- Resolve an id in the run list. -/
def lookupId (l : List RWrap) (i : Nat) : Option RWrap :=
  l.find? (fun w => w.id = i)

/-- Id of the wrapper following the one with id `i` (`run_next->next`). -/
def succAfter : List RWrap → Nat → Option Nat
  | [], _ => none
  | w :: rest, i =>
      if w.id = i then
        match rest with
        | [] => none
        | w2 :: _ => some w2.id
      else succAfter rest i

/-- Unlink the wrapper with id `i` (`dg_frontier_remove`'s list surgery,
dgraph.c:988-1008). -/
def removeId (l : List RWrap) (i : Nat) : List RWrap :=
  l.filter (fun w => w.id ≠ i)

/-- `dg_graph_run` (dgraph.c:154-182): block (`none`) while `run_next` is
NULL; otherwise take the wrapper under the cursor.  If its command is a
continue/break or its node carries `CANCELLED`, advance the cursor, remove
the wrapper from the frontier immediately and return the skip value
(`none`) so the worker loops; otherwise advance the cursor past it and
return it. -/
def dgGraphRun (st : RunSt) : Option (Option RWrap × RunSt) :=
  match st.runNext with
  | none => none
  | some i =>
      match lookupId st.runList i with
      | none => none
      | some w =>
          let nxt := succAfter st.runList i
          if isContBreak w.cmd ∨ w.flag &&& CANCELLED = CANCELLED then
            some (none, ⟨removeId st.runList i, nxt⟩)
          else
            some (some w, ⟨st.runList, nxt⟩)

/-- Claim C6: `dg_graph_run` blocks until the cursor is non-null; a taken
wrapper holding a continue/break command or a `CANCELLED` node is unlinked
at once and the skip value is returned; otherwise the cursor moves past the
wrapper and the wrapper is returned. -/
theorem c6_take_runnable (st : RunSt) (i : Nat) (w : RWrap)
    (hn : st.runNext = some i) (hw : lookupId st.runList i = some w) :
    ((isContBreak w.cmd = true ∨ w.flag &&& CANCELLED = CANCELLED) →
      dgGraphRun st = some (none, ⟨removeId st.runList i, succAfter st.runList i⟩) ∧
      ∀ w2 ∈ removeId st.runList i, w2.id ≠ i) ∧
    (¬ (isContBreak w.cmd = true ∨ w.flag &&& CANCELLED = CANCELLED) →
      dgGraphRun st = some (some w, ⟨st.runList, succAfter st.runList i⟩)) ∧
    (∀ st2 : RunSt, st2.runNext = none → dgGraphRun st2 = none) := by
  refine ⟨?_, ?_, ?_⟩
  · intro hskip
    constructor
    · unfold dgGraphRun
      rw [hn]
      simp only [hw]
      rw [if_pos (by simpa using hskip)]
    · intro w2 hw2
      have := List.of_mem_filter hw2
      simpa using this
  · intro hrun
    unfold dgGraphRun
    rw [hn]
    simp only [hw]
    rw [if_neg (by simpa using hrun)]
  · intro st2 h2
    unfold dgGraphRun
    rw [h2]

/-- Witness for `c6_take_runnable`: a cancelled wrapper is skipped and
unlinked; a plain wrapper is returned with the cursor advanced. -/
theorem c6_take_runnable_witness :
    dgGraphRun ⟨[⟨0, .nother, CANCELLED⟩, ⟨1, .nother, 0⟩], some 0⟩ =
      some (none, ⟨[⟨1, .nother, 0⟩], some 1⟩) ∧
    dgGraphRun ⟨[⟨1, .nother, 0⟩], some 1⟩ =
      some (some ⟨1, .nother, 0⟩, ⟨[⟨1, .nother, 0⟩], none⟩) := by
  constructor
  · exact ((c6_take_runnable ⟨[⟨0, .nother, CANCELLED⟩, ⟨1, .nother, 0⟩], some 0⟩
      0 ⟨0, .nother, CANCELLED⟩ rfl rfl).1 (Or.inr (by decide))).1
  · exact (c6_take_runnable ⟨[⟨1, .nother, 0⟩], some 1⟩ 1 ⟨1, .nother, 0⟩
      rfl rfl).2.1 (by rintro (h | h) <;> simp_all <;> exact absurd h (by decide))

/-! ### C7: dg_frontier_set_eof / dg_frontier_remove (dgraph.c:948-1015) -/

/-- The frontier state read by the EOF logic: the run list (as ids), the
`eof` flag, and whether the `NEOF` sentinel has been put under `run_next`
(`dg_frontier_add_eof`). -/
structure EofSt where
  runList : List Nat
  eofFlag : Bool
  sentinel : Bool

/-- `dg_frontier_add_eof` (dgraph.c:948-956): place the `NEOF` sentinel
under `run_next` (the run list itself is not touched). -/
def dgFrontierAddEof (st : EofSt) : EofSt := { st with sentinel := true }

/-- `dg_frontier_set_eof` (dgraph.c:959-966): set the eof flag and, iff the
run list is empty, append the sentinel immediately. -/
def dgFrontierSetEof (st : EofSt) : EofSt :=
  let st1 := { st with eofFlag := true }
  if st1.runList = [] then dgFrontierAddEof st1 else st1

/-- The run-list effect of `dg_frontier_remove (rem)` (dgraph.c:981-1015):
`dg_frontier_parent_proc` may enqueue wrappers (`adds1`), `rem` is
unlinked, `dg_graph_remove` may promote dependents (`adds2`), and then the
sentinel is appended iff the run list has become empty and eof is set. -/
def dgFrontierRemoveStep (st : EofSt) (rem : Nat) (adds1 adds2 : List Nat) :
    EofSt :=
  let l2 := (st.runList ++ adds1).erase rem ++ adds2
  let st1 := { st with runList := l2 }
  if l2 = [] ∧ st1.eofFlag then dgFrontierAddEof st1 else st1

/-- Claim C7: the EOF sentinel is placed only on an otherwise empty
frontier — `dg_frontier_set_eof` sets the flag and appends the sentinel iff
the run list is empty, and `dg_frontier_remove` appends the sentinel after
unlinking iff the run list has become empty and the eof flag is set. -/
theorem c7_eof_sentinel (st : EofSt) (rem : Nat) (adds1 adds2 : List Nat)
    (hs : st.sentinel = false) :
    ((dgFrontierSetEof st).eofFlag = true ∧
      ((dgFrontierSetEof st).sentinel = true ↔ st.runList = [])) ∧
    ((dgFrontierRemoveStep st rem adds1 adds2).sentinel = true ↔
      ((st.runList ++ adds1).erase rem ++ adds2 = [] ∧ st.eofFlag = true)) := by
  refine ⟨⟨?_, ?_⟩, ?_⟩
  · unfold dgFrontierSetEof dgFrontierAddEof
    by_cases h : st.runList = [] <;> simp [h]
  · unfold dgFrontierSetEof dgFrontierAddEof
    by_cases h : st.runList = [] <;> simp [h, hs]
  · unfold dgFrontierRemoveStep dgFrontierAddEof
    by_cases h : (st.runList ++ adds1).erase rem ++ adds2 = [] ∧ st.eofFlag = true
    · simp only [h.1, h.2]
      simp [h.1, h.2]
    · rw [if_neg (by simpa using h)]
      simp only [hs]
      constructor
      · intro hfalse
        exact absurd hfalse (by simp)
      · intro hcond
        exact absurd hcond (by simpa using h)

/-- Witness for `c7_eof_sentinel`: on an empty frontier `set_eof` places
the sentinel; removing the last wrapper with eof set places it too. -/
theorem c7_eof_sentinel_witness :
    (dgFrontierSetEof ⟨[], false, false⟩).sentinel = true ∧
    (dgFrontierRemoveStep ⟨[7], true, false⟩ 7 [] []).sentinel = true :=
  ⟨((c7_eof_sentinel ⟨[], false, false⟩ 0 [] [] rfl).1.2).mpr rfl,
    ((c7_eof_sentinel ⟨[7], true, false⟩ 7 [] [] rfl).2).mpr (by decide)⟩

/-! ### C10: command-payload ownership (KEEP_CMD / FREE_CMD) -/

/-- The free decision of `dg_graph_remove`'s non-control branch
(dgraph.c:261-265): the command payload is freed iff the node's flag has
the `FREE_CMD` bit. -/
def dgGraphRemoveFrees (flag : Nat) : Bool :=
  decide (flag &&& FREE_CMD = FREE_CMD)

/-- The flags `dg_frontier_expand` (dgraph.c:741-777) gives the children it
creates from a command list of length `k + 1`: every non-terminal child
gets `KEEP_CMD | flag`, the terminal child `KEEP_CMD | TEST_STATUS` (for a
`TEST_CMD` expansion), `KEEP_CMD | BODY_STATUS` (for `BODY_CMD`), or bare
`KEEP_CMD`. -/
def expandChildFlags (flag : Nat) (k : Nat) : List Nat :=
  List.replicate k (KEEP_CMD ||| flag) ++
    [KEEP_CMD ||| (if flag = TEST_CMD then TEST_STATUS
      else if flag = BODY_CMD then BODY_STATUS else 0)]

/-- The flag `dg_graph_add` (dgraph.c:186-194) creates top-level
parser-submitted nodes with. -/
def dgGraphAddFlag : Nat := FREE_CMD

/-- Claim C10: every child graph node created by compound-construct
expansion carries flags without the `FREE_CMD` bit, so removing an expanded
child never frees its command payload; on (non-control) removal the payload
is freed exactly when the node's flag has the `FREE_CMD` bit; and the
top-level nodes submitted by the parser thread are created with
`FREE_CMD`. -/
theorem c10_keep_cmd :
    (∀ (flag k : Nat), flag = TEST_CMD ∨ flag = BODY_CMD →
      ∀ f ∈ expandChildFlags flag k, dgGraphRemoveFrees f = false) ∧
    (∀ flag : Nat, dgGraphRemoveFrees flag = true ↔
      flag &&& FREE_CMD = FREE_CMD) ∧
    dgGraphRemoveFrees dgGraphAddFlag = true := by
  refine ⟨?_, ?_, by decide⟩
  · intro flag k hflag f hf
    unfold expandChildFlags at hf
    rcases List.mem_append.mp hf with h | h
    · have hfe := List.eq_of_mem_replicate h
      rcases hflag with rfl | rfl <;> subst hfe <;> decide
    · rw [List.mem_singleton] at h
      rcases hflag with rfl | rfl <;> subst h <;> decide
  · intro flag
    exact decide_eq_true_iff

/-- Witness for `c10_keep_cmd`: the flags of a two-command test expansion
are not freeing. -/
theorem c10_keep_cmd_witness :
    dgGraphRemoveFrees (KEEP_CMD ||| TEST_CMD) = false ∧
    dgGraphRemoveFrees (KEEP_CMD ||| TEST_STATUS) = false :=
  ⟨c10_keep_cmd.1 TEST_CMD 1 (Or.inl rfl) (KEEP_CMD ||| TEST_CMD) (by decide),
    c10_keep_cmd.1 TEST_CMD 1 (Or.inl rfl) (KEEP_CMD ||| TEST_STATUS) (by decide)⟩

end Dash
